import Mathlib

/-!
Shallow embedding of the DnD Initiative Tracker (Jurrum/DnD-Initiative-Tracker).

Source files embedded here:
* `src/js/classes/BaseCharacter.js` — health, aliveness and condition
  management shared by players and characters;
* `src/unnamed/part_002` (the documented `Initiative` class, the one whose
  line numbers the specification references) — the turn-order engine.

JS numbers that the program only ever uses as integers are modelled as `Int`
(the clamps `Math.max`/`Math.min` are kept explicit).  JS arrays are `List`s.
Fallible methods (the ones that `throw`) return `Except String`.  Fields the
claims never touch (generated random ids of condition/action entries,
timestamps) are omitted or, for player ids, passed in explicitly, because the
source generates them nondeterministically.
-/

namespace DnD

/-- A condition entry, from `BaseCharacter.addCondition`:
`{id, name, duration, description, appliedTurn}`.  The generated `id` and the
constant `appliedTurn = 0` are omitted; `duration == -1` means permanent. -/
structure Condition where
  name : String
  duration : Int
  description : String
  deriving Repr, DecidableEq

/-- An action-log entry (`BaseCharacter.addAction`).  Only its presence
matters to the engine (`processEndOfTurn` clears the log), so it is kept
abstract as its description string. -/
structure ActionEntry where
  action : String
  deriving Repr, DecidableEq

/-- The state of a `Player` (`src/js/classes/Player.js`, extending
`BaseCharacter`): the fields the initiative engine and the health/condition
logic read or write. -/
structure Player where
  id : String
  name : String
  maxHp : Int
  currentHp : Int
  ac : Int
  initiative : Int
  initiativeModifier : Int
  conditions : List Condition
  actions : List ActionEntry
  isAlive : Bool
  deriving Repr, DecidableEq

/-- `parseInt(s, 10)` of ECMAScript on an already-stringified argument:
skip leading whitespace, an optional sign, then the longest prefix of decimal
digits; `none` models `NaN` (no digits at all).  A numeric JS argument is
first converted to its decimal string, so `parseInt(5.9, 10) = 5`. -/
def jsWhitespace (c : Char) : Bool :=
  c == ' ' || c == '\t' || c == '\n' || c == '\r' || c == '\x0b' || c == '\x0c'

def jsParseInt (s : String) : Option Int :=
  let cs := s.data.dropWhile jsWhitespace
  let signAndRest : Int × List Char :=
    match cs with
    | '-' :: rest => (-1, rest)
    | '+' :: rest => (1, rest)
    | _ => (1, cs)
  let digits := signAndRest.2.takeWhile fun c => '0' ≤ c && c ≤ '9'
  if digits.isEmpty then none
  else some (signAndRest.1 *
    ((digits.foldl (fun a c => a * 10 + (c.toNat - 48)) 0 : Nat) : Int))

/-- `String.prototype.trim` of ECMAScript: strip leading and trailing
whitespace. -/
def jsTrim (s : String) : String :=
  String.mk (((s.data.dropWhile jsWhitespace).reverse.dropWhile jsWhitespace).reverse)

namespace Player

/-- `BaseCharacter.hasCondition`. -/
def hasCondition (p : Player) (conditionName : String) : Bool :=
  p.conditions.any fun condition => condition.name == conditionName

/-- `BaseCharacter.addCondition` (duration is already a number here, so the
source's `parseInt`/`isNaN` validation never fires; the `!name` falsiness
guard is the empty-string test). -/
def addCondition (p : Player) (name : String) (duration : Int)
    (description : String) : Except String (Player × Condition) :=
  if name == "" then
    .error "Condition name is required"
  else
    let condition : Condition :=
      { name := jsTrim name, duration := duration, description := description }
    .ok ({ p with conditions := p.conditions ++ [condition] }, condition)

/-- `BaseCharacter.removeCondition`. -/
def removeCondition (p : Player) (name : String) : Player :=
  { p with conditions := p.conditions.filter fun condition => condition.name != name }

/-- The filter body of `BaseCharacter.updateConditions`: keep a permanent
(`-1`) condition untouched; otherwise decrement its duration, keeping the
condition iff the decremented duration is still `>= 0`. -/
def decayCondition (condition : Condition) : Option Condition :=
  if condition.duration == -1 then some condition
  else
    let condition := { condition with duration := condition.duration - 1 }
    if condition.duration >= 0 then some condition else none

/-- `BaseCharacter.updateConditions`. -/
def updateConditions (p : Player) : Player :=
  { p with conditions := p.conditions.filterMap decayCondition }

/-- `BaseCharacter.takeDamage`: parse the amount, reject `NaN` and negative
amounts, clamp health at 0, and on reaching 0 while alive flip `isAlive` and
add the permanent `unconscious` condition.  Returns the new player together
with the returned `currentHp`. -/
def takeDamage (p : Player) (amount : String) : Except String (Player × Int) :=
  match jsParseInt amount with
  | none => .error "Damage amount must be a non-negative number"
  | some numAmount =>
    if numAmount < 0 then .error "Damage amount must be a non-negative number"
    else
      let p := { p with currentHp := max 0 (p.currentHp - numAmount) }
      let p :=
        if p.currentHp == 0 && p.isAlive then
          { p with isAlive := false,
                   conditions := p.conditions ++
                     [{ name := "unconscious", duration := -1, description := "" }] }
        else p
      .ok (p, p.currentHp)

/-- `BaseCharacter.heal`: parse the amount, reject `NaN` and negative
amounts, clamp health at `maxHp`, and on becoming positive while not alive
flip `isAlive` and remove the `unconscious` condition. -/
def heal (p : Player) (amount : String) : Except String (Player × Int) :=
  match jsParseInt amount with
  | none => .error "Heal amount must be a non-negative number"
  | some numAmount =>
    if numAmount < 0 then .error "Heal amount must be a non-negative number"
    else
      let p := { p with currentHp := min p.maxHp (p.currentHp + numAmount) }
      let p :=
        if p.currentHp > 0 && !p.isAlive then
          { (p.removeCondition "unconscious") with isAlive := true }
        else p
      .ok (p, p.currentHp)

end Player

/-- A `turnHistory` entry (`Initiative.recordTurn`); the wall-clock timestamp
is omitted. -/
structure TurnRecord where
  playerId : String
  playerName : String
  turn : Int
  round : Int
  deriving Repr, DecidableEq

/-- The state of the `Initiative` turn-order engine (`src/unnamed/part_002`,
documented version). -/
structure Initiative where
  players : List Player
  currentTurn : Int
  round : Int
  isActive : Bool
  turnHistory : List TurnRecord
  deriving Repr, DecidableEq

namespace Initiative

/-- The `Initiative` constructor. -/
def new : Initiative :=
  { players := [], currentTurn := 0, round := 1, isActive := false, turnHistory := [] }

/-- `Initiative.getPlayer`. -/
def getPlayer (st : Initiative) (playerId : String) : Option Player :=
  st.players.find? fun p => p.id == playerId

/-- `Initiative.addPlayer`.  The `!player || !player.id` falsiness guard is
modelled as the empty-id test (the argument itself is always a structure
here). -/
def addPlayer (st : Initiative) (player : Player) : Initiative × Bool :=
  if player.id == "" then (st, false)
  else
    match st.players.find? (fun p => p.id == player.id) with
    | some _ => (st, false)
    | none => ({ st with players := st.players ++ [player] }, true)

/-- `Initiative.removePlayer`: splice out the first player with the given id,
then repair `currentTurn` by the case split in the source, ending with the
`Math.max`/`Math.min` safety clamp. -/
def removePlayer (st : Initiative) (playerId : String) : Initiative × Bool :=
  match st.players.findIdx? (fun p => p.id == playerId) with
  | none => (st, false)
  | some index =>
    let players := st.players.eraseIdx index
    if players.length == 0 then
      ({ st with players := players, currentTurn := 0 }, true)
    else
      let ct := st.currentTurn
      let ct :=
        if (index : Int) < ct then ct - 1
        else if (index : Int) == ct then
          (if ct >= (players.length : Int) then 0 else ct)
        else ct
      let ct := max 0 (min ct ((players.length : Int) - 1))
      ({ st with players := players, currentTurn := ct }, true)

/-- `Initiative.getCurrentPlayer`.  The method mutates: when `currentTurn` is
out of bounds it resets it to 0 before indexing, so it returns the updated
state together with the returned player. -/
def getCurrentPlayer (st : Initiative) : Initiative × Option Player :=
  if !st.isActive || st.players.length == 0 then (st, none)
  else
    let st :=
      if st.currentTurn < 0 || st.currentTurn >= (st.players.length : Int) then
        { st with currentTurn := 0 }
      else st
    (st, st.players.get? st.currentTurn.toNat)

/-- The sort comparator of `Initiative.sortByInitiative`:
`playerBefore a b` holds exactly when `comparator(a, b) < 0`, i.e. when `a`
sorts strictly before `b` (higher `initiative`, ties broken by higher
`initiativeModifier`). -/
def playerBefore (a b : Player) : Bool :=
  if b.initiative != a.initiative then b.initiative < a.initiative
  else b.initiativeModifier < a.initiativeModifier

/-- Stable insertion step: `a` moves past exactly the elements that sort
strictly before it, so among comparator-equal elements the earlier one stays
first. -/
def sortInsert (a : Player) : List Player → List Player
  | [] => [a]
  | b :: l => if playerBefore b a then b :: sortInsert a l else a :: b :: l

/-- Stable sort by the comparator of `sortByInitiative`.  ECMAScript
requires `Array.prototype.sort` to be stable, and a stable sort's output is
determined by the comparator, so this insertion sort computes exactly the
array the source produces. -/
def sortPlayers : List Player → List Player
  | [] => []
  | b :: l => sortInsert b (sortPlayers l)

/-- `Initiative.sortByInitiative`: capture the current player (via the
mutating `getCurrentPlayer`), sort, and when the engine is active and a
current player existed, point `currentTurn` at its new position; otherwise
reset `currentTurn` to 0. -/
def sortByInitiative (st : Initiative) : Initiative :=
  match st.getCurrentPlayer with
  | (st, currentPlayer) =>
    let st := { st with players := sortPlayers st.players }
    match currentPlayer with
    | some p =>
      if st.isActive then
        match st.players.findIdx? (fun q => q.id == p.id) with
        | some newIndex => { st with currentTurn := (newIndex : Int) }
        | none => st
      else { st with currentTurn := 0 }
    | none => { st with currentTurn := 0 }

/-- `Initiative.startEncounter`. -/
def startEncounter (st : Initiative) : Initiative × Bool :=
  if st.players.length == 0 then (st, false)
  else
    ({ st with isActive := true, currentTurn := 0, round := 1, turnHistory := [] }, true)

/-- `Initiative.endEncounter`. -/
def endEncounter (st : Initiative) : Initiative :=
  { st with isActive := false, currentTurn := 0, round := 1, turnHistory := [] }

/-- `Initiative.recordTurn`. -/
def recordTurn (st : Initiative) : Initiative :=
  match st.getCurrentPlayer with
  | (st, some currentPlayer) =>
    { st with turnHistory := st.turnHistory ++
        [{ playerId := currentPlayer.id, playerName := currentPlayer.name,
           turn := st.currentTurn, round := st.round }] }
  | (st, none) => st

/-- `Initiative.processStartOfTurn`: run `updateConditions` on the current
player (in place, at index `currentTurn`). -/
def processStartOfTurn (st : Initiative) : Initiative :=
  match st.getCurrentPlayer with
  | (st, some currentPlayer) =>
    { st with players := st.players.set st.currentTurn.toNat currentPlayer.updateConditions }
  | (st, none) => st

/-- `Initiative.processEndOfTurn`: clear the current player's action log. -/
def processEndOfTurn (st : Initiative) : Initiative :=
  match st.getCurrentPlayer with
  | (st, some currentPlayer) =>
    { st with players := st.players.set st.currentTurn.toNat { currentPlayer with actions := [] } }
  | (st, none) => st

/-- `Initiative.nextTurn` ("advance").  `processEndOfRound` of the embedded
version is a no-op (its body is only the comment saying conditions are
handled per-turn by `processStartOfTurn`). -/
def nextTurn (st : Initiative) : Initiative × Option Player :=
  if !st.isActive || st.players.length == 0 then (st, none)
  else
    let st := st.recordTurn
    let st := st.processEndOfTurn
    let st := { st with currentTurn := st.currentTurn + 1 }
    let st :=
      if st.currentTurn >= (st.players.length : Int) then
        { st with currentTurn := 0, round := st.round + 1 }
      else st
    let st := st.processStartOfTurn
    st.getCurrentPlayer

/-- `Initiative.previousTurn` ("retreat"). -/
def previousTurn (st : Initiative) : Initiative × Option Player :=
  if !st.isActive || st.players.length == 0 then (st, none)
  else
    let st := { st with currentTurn := st.currentTurn - 1 }
    let st :=
      if st.currentTurn < 0 then
        { st with currentTurn := (st.players.length : Int) - 1,
                  round := if st.round > 1 then st.round - 1 else st.round }
      else st
    st.getCurrentPlayer

/-- `Initiative.setInitiativeOrder` ("reorder"): collect the players matching
the given ids in order; apply only when that collection has the same length
as the current order, resetting `currentTurn` to 0. -/
def setInitiativeOrder (st : Initiative) (playerIds : List String) : Initiative :=
  let reorderedPlayers := playerIds.filterMap fun id => st.getPlayer id
  if reorderedPlayers.length == st.players.length then
    { st with players := reorderedPlayers, currentTurn := 0 }
  else st

/-- `Initiative.movePlayer` ("move"): bounds-checked splice-out/splice-in,
then the `currentTurn` adjustment and the final safety clamp. -/
def movePlayer (st : Initiative) (fromIndex toIndex : Int) : Initiative × Bool :=
  if fromIndex < 0 || fromIndex >= (st.players.length : Int) ||
      toIndex < 0 || toIndex >= (st.players.length : Int) then
    (st, false)
  else if fromIndex == toIndex then (st, true)
  else
    match st.players.get? fromIndex.toNat with
    | none => (st, false)
    | some player =>
      let players := (st.players.eraseIdx fromIndex.toNat).insertIdx toIndex.toNat player
      let ct := st.currentTurn
      let ct :=
        if ct == fromIndex then toIndex
        else if fromIndex < ct && toIndex >= ct then ct - 1
        else if fromIndex > ct && toIndex <= ct then ct + 1
        else ct
      let ct := max 0 (min ct ((players.length : Int) - 1))
      ({ st with players := players, currentTurn := ct }, true)

end Initiative

/-! ### Deserialization (`Player.fromJSON`, `Initiative.fromJSON`)

Stored records are modelled field-by-field: `none` stands for an absent (or
non-array, for the list fields) field.  The JS `x || default` idiom on these
fields is falsiness-aware: `0`, `""` and absence all pick the default. -/

/-- JS `v || d` for an integer-or-absent field (`0` is falsy). -/
def jsOrInt (v : Option Int) (d : Int) : Int :=
  match v with
  | some n => if n == 0 then d else n
  | none => d

/-- JS `v || d` for a string-or-absent field (`""` is falsy). -/
def jsOrStr (v : Option String) (d : String) : String :=
  match v with
  | some s => if s == "" then d else s
  | none => d

/-- A stored player record (the fields `Player.fromJSON` reads; `notes` is
dropped, no claim touches it). -/
structure PlayerData where
  id : Option String
  name : Option String
  maxHp : Option Int
  currentHp : Option Int
  ac : Option Int
  initiativeModifier : Option Int
  type? : Option String
  initiative : Option Int
  conditions : Option (List Condition)
  actions : Option (List ActionEntry)
  isAlive : Option Bool
  deriving Repr, DecidableEq

/-- `Player.fromJSON` (`src/js/classes/Player.js`): throws on a null/absent
record; otherwise runs the `Player` constructor (which throws on an invalid
character type and clamps `maxHp`/`ac`) and restores the stored state,
defaulting absent fields.  `genId` stands for the nondeterministically
generated id the constructor would produce. -/
def Player.fromJSON (genId : String) (data : Option PlayerData) : Except String Player :=
  match data with
  | none => .error "Cannot create Player from null/undefined data"
  | some d =>
    let type := jsOrStr d.type? "player"
    if !(type == "player" || type == "monster" || type == "npc") then
      .error "Invalid character type"
    else
      let validHp := jsOrInt d.maxHp 10
      let maxHp := if validHp < 1 then 1 else validHp
      let validAc := jsOrInt d.ac 10
      let p : Player :=
        { id := genId
          name := jsOrStr d.name "Unknown"
          maxHp := maxHp
          currentHp := maxHp
          ac := if validAc < 0 then 10 else validAc
          initiative := 0
          initiativeModifier := jsOrInt d.initiativeModifier 0
          conditions := []
          actions := []
          isAlive := true }
      .ok { p with
            id := jsOrStr d.id p.id
            currentHp := match d.currentHp with | some h => h | none => p.maxHp
            initiative := jsOrInt d.initiative 0
            isAlive := match d.isAlive with | some b => b | none => true
            conditions := d.conditions.getD []
            actions := d.actions.getD [] }

/-- A stored engine record (the fields `Initiative.fromJSON` reads); a player
entry that is `none` models a null element of the stored `players` array. -/
structure InitiativeData where
  players : Option (List (Option PlayerData))
  currentTurn : Option Int
  round : Option Int
  isActive : Option Bool
  turnHistory : Option (List TurnRecord)
  deriving Repr, DecidableEq

/-- `data.players.map(p => Player.fromJSON(p))`: the first throwing entry
propagates. -/
def playersFromJSON : List (Option PlayerData) → Except String (List Player)
  | [] => .ok []
  | d :: rest => do
    let p ← Player.fromJSON "" d
    let ps ← playersFromJSON rest
    .ok (p :: ps)

/-- `Initiative.fromJSON` (`src/unnamed/part_002`): throws on a null/absent
top-level record, defaults the optional fields, and re-clamps the restored
`currentTurn` into bounds (0 when the restored order is empty). -/
def Initiative.fromJSON (data : Option InitiativeData) : Except String Initiative :=
  match data with
  | none => .error "Cannot create Initiative from null/undefined data"
  | some d => do
    let players ←
      match d.players with
      | some ps => playersFromJSON ps
      | none => .ok []
    let currentTurn := jsOrInt d.currentTurn 0
    let currentTurn :=
      if players.length > 0 then
        max 0 (min currentTurn ((players.length : Int) - 1))
      else 0
    .ok { players := players
          currentTurn := currentTurn
          round := jsOrInt d.round 1
          isActive := d.isActive.getD false
          turnHistory := d.turnHistory.getD [] }

/-! ### Operation sequences, iteration, and spec-side definitions -/

/-- One engine mutation out of the `add`/`remove`/`move` family the
turn-pointer-validity property quantifies over. -/
inductive EngineOp where
  | add (player : Player)
  | remove (playerId : String)
  | move (fromIndex toIndex : Int)
  deriving Repr

/-- Apply one operation (dropping the returned boolean). -/
def applyOp (st : Initiative) : EngineOp → Initiative
  | .add player => (st.addPlayer player).1
  | .remove playerId => (st.removePlayer playerId).1
  | .move fromIndex toIndex => (st.movePlayer fromIndex toIndex).1

/-- Run a finite sequence of `add`/`remove`/`move` operations. -/
def runOps (st : Initiative) (ops : List EngineOp) : Initiative :=
  ops.foldl applyOp st

/-- The invariant the spec states for the turn pointer: a valid index while
the order is non-empty, and 0 once the order is empty. -/
def EngineInv (st : Initiative) : Prop :=
  (st.players = [] → st.currentTurn = 0) ∧
  (st.players ≠ [] → 0 ≤ st.currentTurn ∧ st.currentTurn < (st.players.length : Int))

instance (st : Initiative) : Decidable (EngineInv st) := by
  unfold EngineInv; infer_instance

/-- `advanceN st k`: call `nextTurn` `k` times, keeping the state. -/
def advanceN (st : Initiative) : Nat → Initiative
  | 0 => st
  | k + 1 => ((advanceN st k).nextTurn).1

/-- The currentIndex repair rule of the spec for `remove`, written from the
spec's words (case split on the removed position, then the final clamp), to
be compared with `Initiative.removePlayer`. -/
def removeRepairSpec (ct : Int) (removedPos : Nat) (newLen : Nat) : Int :=
  if newLen = 0 then 0
  else
    let ct1 :=
      if (removedPos : Int) < ct then ct - 1
      else if (removedPos : Int) = ct then (if (newLen : Int) ≤ ct then 0 else ct)
      else ct
    max 0 (min ct1 ((newLen : Int) - 1))

/-! ### Concrete inputs used by the witnesses -/

/-- A concrete player for witness states. -/
def mkPlayer (id : String) (ini : Int) (m : Int) : Player :=
  { id := id, name := id, maxHp := 10, currentHp := 10, ac := 10,
    initiative := ini, initiativeModifier := m, conditions := [], actions := [],
    isAlive := true }

/-- A concrete three-player engine (A 20, B 15, C 10), not yet active. -/
def stABC : Initiative :=
  { players := [mkPlayer "a" 20 0, mkPlayer "b" 15 0, mkPlayer "c" 10 0],
    currentTurn := 0, round := 1, isActive := false, turnHistory := [] }

/-- A stored engine record whose `players` array holds one null entry. -/
def badData : InitiativeData :=
  { players := some [none], currentTurn := none, round := none,
    isActive := none, turnHistory := none }

/-- A well-formed stored player record with every optional field absent
except the id. -/
def goodPlayerData : PlayerData :=
  { id := some "x", name := none, maxHp := none, currentHp := none, ac := none,
    initiativeModifier := none, type? := none, initiative := none,
    conditions := none, actions := none, isAlive := none }

/-- A stored engine record with one well-formed player entry and an
out-of-range stored `currentTurn`. -/
def goodData : InitiativeData :=
  { players := some [some goodPlayerData], currentTurn := some 57, round := none,
    isActive := none, turnHistory := none }

/-! ## Shared lemmas -/

/-- When `currentTurn` is already in bounds and the engine is active,
`getCurrentPlayer` does not mutate and returns the entry at `currentTurn`. -/
theorem getCurrentPlayer_inbounds (st : Initiative) (ha : st.isActive = true)
    (h0 : 0 ≤ st.currentTurn) (hlt : st.currentTurn < (st.players.length : Int)) :
    st.getCurrentPlayer = (st, st.players.get? st.currentTurn.toNat) := by
  have hlen : st.players.length ≠ 0 := by omega
  rw [Initiative.getCurrentPlayer, if_neg (by simp [ha, hlen]),
    if_neg (by simp; omega)]

/-- In-bounds current index yields an existing player. -/
theorem get?_isSome_of_lt {l : List Player} {i : Nat} (h : i < l.length) :
    (l.get? i).isSome = true := by
  rw [List.get?_eq_get h]
  rfl

/-! ## Claims -/

/-- C10: `takeDamage`/`heal` raise an error exactly when `parseInt(amount, 10)`
is NaN or negative; any input with a parseable integer prefix (`"5.9"`,
`"7abc"`) is accepted, silently truncated to that integer, and applied. -/
theorem claim_c10 (p : Player) (s : String) :
    ((∃ e, p.takeDamage s = .error e) ↔
      jsParseInt s = none ∨ ∃ n, jsParseInt s = some n ∧ n < 0) ∧
    ((∃ e, p.heal s = .error e) ↔
      jsParseInt s = none ∨ ∃ n, jsParseInt s = some n ∧ n < 0) ∧
    (∀ n : Int, jsParseInt s = some n → 0 ≤ n →
      ∃ p' r, p.takeDamage s = .ok (p', r) ∧ p'.currentHp = max 0 (p.currentHp - n)) ∧
    (∀ n : Int, jsParseInt s = some n → 0 ≤ n →
      ∃ p' r, p.heal s = .ok (p', r) ∧ p'.currentHp = min p.maxHp (p.currentHp + n)) ∧
    jsParseInt "5.9" = some 5 ∧ jsParseInt "7abc" = some 7 := by
  refine ⟨?_, ?_, ?_, ?_, by decide, by decide⟩
  · cases hn : jsParseInt s with
    | none => simp [Player.takeDamage, hn]
    | some n =>
      by_cases hneg : n < 0 <;> simp [Player.takeDamage, hn, hneg]
  · cases hn : jsParseInt s with
    | none => simp [Player.heal, hn]
    | some n =>
      by_cases hneg : n < 0 <;> simp [Player.heal, hn, hneg]
  · intro n hn hnn
    have hneg : ¬ n < 0 := by omega
    simp only [Player.takeDamage, hn, if_neg hneg]
    refine ⟨_, _, rfl, ?_⟩
    split <;> simp
  · intro n hn hnn
    have hneg : ¬ n < 0 := by omega
    simp only [Player.heal, hn, if_neg hneg]
    refine ⟨_, _, rfl, ?_⟩
    split <;> simp [Player.removeCondition]

/-- C10 witness: a damage amount of `"5.9"` is accepted and truncated to 5. -/
theorem claim_c10_witness :
    ∃ p' r, (mkPlayer "w" 0 0).takeDamage "5.9" = .ok (p', r) ∧
      p'.currentHp = max 0 ((mkPlayer "w" 0 0).currentHp - 5) :=
  (claim_c10 (mkPlayer "w" 0 0) "5.9").2.2.1 5 (by decide) (by decide)

/-- C6: under the invariant `0 <= currentHealth <= maxHealth` and
`isAlive == (currentHealth > 0)`, for a valid non-negative amount,
`takeDamage` never drives health below 0 and `heal` never exceeds
`maxHealth`; the aliveness invariant is preserved, and exactly at the 0
crossing the mutators toggle `isAlive` and the permanent `unconscious`
condition. -/
theorem claim_c6 (p : Player) (s : String) (n : Int)
    (hp0 : 0 ≤ p.currentHp) (hpm : p.currentHp ≤ p.maxHp)
    (ha : p.isAlive = decide (0 < p.currentHp))
    (hn : jsParseInt s = some n) (hnn : 0 ≤ n) :
    (∃ p' r, p.takeDamage s = .ok (p', r) ∧
      0 ≤ p'.currentHp ∧ p'.currentHp ≤ p'.maxHp ∧ p'.maxHp = p.maxHp ∧
      p'.isAlive = decide (0 < p'.currentHp) ∧
      (0 < p.currentHp ∧ p'.currentHp = 0 →
        p'.isAlive = false ∧
        p'.conditions = p.conditions ++
          [{ name := "unconscious", duration := -1, description := "" }]) ∧
      (¬(0 < p.currentHp ∧ p'.currentHp = 0) →
        p'.isAlive = p.isAlive ∧ p'.conditions = p.conditions)) ∧
    (∃ p' r, p.heal s = .ok (p', r) ∧
      0 ≤ p'.currentHp ∧ p'.currentHp ≤ p'.maxHp ∧ p'.maxHp = p.maxHp ∧
      p'.isAlive = decide (0 < p'.currentHp) ∧
      (p.currentHp = 0 ∧ 0 < p'.currentHp →
        p'.isAlive = true ∧
        p'.conditions = p.conditions.filter fun c => c.name != "unconscious") ∧
      (¬(p.currentHp = 0 ∧ 0 < p'.currentHp) →
        p'.isAlive = p.isAlive ∧ p'.conditions = p.conditions)) := by
  have hneg : ¬ n < 0 := by omega
  constructor
  · simp only [Player.takeDamage, hn, if_neg hneg]
    refine ⟨_, _, rfl, ?_⟩
    have hA : (0:Int) ≤ 0 ⊔ (p.currentHp - n) := le_max_left 0 _
    have hD : 0 ⊔ (p.currentHp - n) ≤ p.currentHp := max_le hp0 (by omega)
    have hC : (0:Int) < 0 ⊔ (p.currentHp - n) ↔ 0 < p.currentHp - n := by
      constructor
      · intro h
        rcases lt_sup_iff.mp h with h | h
        · omega
        · exact h
      · intro h
        exact lt_sup_of_lt_right h
    by_cases hcross : 0 ⊔ (p.currentHp - n) = 0 ∧ 0 < p.currentHp
    · rw [if_pos (by rw [ha]; simp [hcross.1, hcross.2])]
      dsimp only
      exact ⟨hA, by omega, rfl, by simp [hcross.1], fun _ => ⟨rfl, rfl⟩,
        fun hcon => absurd ⟨hcross.2, hcross.1⟩ hcon⟩
    · rw [if_neg (by rw [ha]; simp; intro h1; omega)]
      dsimp only
      have hiff : 0 < p.currentHp ↔ 0 < 0 ⊔ (p.currentHp - n) := by omega
      exact ⟨hA, by omega, rfl, by rw [ha]; exact decide_eq_decide.mpr hiff,
        fun hcr => absurd ⟨hcr.2, hcr.1⟩ hcross, fun _ => ⟨rfl, rfl⟩⟩
  · simp only [Player.heal, hn, if_neg hneg]
    refine ⟨_, _, rfl, ?_⟩
    have hA : p.maxHp ⊓ (p.currentHp + n) ≤ p.maxHp := min_le_left _ _
    have hB : (0:Int) ≤ p.maxHp ⊓ (p.currentHp + n) := le_min (by omega) (by omega)
    have hC : (0:Int) < p.maxHp ⊓ (p.currentHp + n) ↔
        0 < p.maxHp ∧ 0 < p.currentHp + n := lt_min_iff
    by_cases hcross : 0 < p.maxHp ⊓ (p.currentHp + n) ∧ p.currentHp = 0
    · rw [if_pos (by rw [ha]; simp [hcross.1, hcross.2]; omega)]
      dsimp only [Player.removeCondition]
      exact ⟨hB, hA, rfl, by simp [hcross.1],
        fun _ => ⟨rfl, rfl⟩, fun hcon => absurd ⟨hcross.2, hcross.1⟩ hcon⟩
    · rw [if_neg (by rw [ha]; simp; intro h1; omega)]
      dsimp only
      have hiff : 0 < p.currentHp ↔ 0 < p.maxHp ⊓ (p.currentHp + n) := by omega
      exact ⟨hB, hA, rfl, by rw [ha]; exact decide_eq_decide.mpr hiff,
        fun hcr => absurd ⟨hcr.2, hcr.1⟩ hcross, fun _ => ⟨rfl, rfl⟩⟩

/-- C6 witness: the damage branch instantiated at a healthy 10/10 player and
the amount string `"5"`. -/
theorem claim_c6_witness :
    ∃ p' r, (mkPlayer "w" 0 0).takeDamage "5" = .ok (p', r) ∧
      0 ≤ p'.currentHp ∧ p'.currentHp ≤ p'.maxHp ∧ p'.maxHp = (mkPlayer "w" 0 0).maxHp ∧
      p'.isAlive = decide (0 < p'.currentHp) ∧
      (0 < (mkPlayer "w" 0 0).currentHp ∧ p'.currentHp = 0 →
        p'.isAlive = false ∧
        p'.conditions = (mkPlayer "w" 0 0).conditions ++
          [{ name := "unconscious", duration := -1, description := "" }]) ∧
      (¬(0 < (mkPlayer "w" 0 0).currentHp ∧ p'.currentHp = 0) →
        p'.isAlive = (mkPlayer "w" 0 0).isAlive ∧
        p'.conditions = (mkPlayer "w" 0 0).conditions) :=
  (claim_c6 (mkPlayer "w" 0 0) "5" 5 (by decide) (by decide) (by decide)
    (by decide) (by decide)).1

/-- C9: `previousTurn` ("retreat") is a no-op returning absent when inactive
or empty; otherwise it decrements `currentIndex`, wrapping below 0 to
`len(order)-1` while decrementing `round` floored at 1 (round never drops
below 1), and returns the new current combatant. -/
theorem claim_c9 (st : Initiative) :
    ((st.isActive = false ∨ st.players = []) → st.previousTurn = (st, none)) ∧
    (st.isActive = true → st.players ≠ [] → 0 ≤ st.currentTurn →
      st.currentTurn < (st.players.length : Int) → 1 ≤ st.round →
      st.previousTurn.1.players = st.players ∧
      (st.previousTurn.1.currentTurn =
        if st.currentTurn = 0 then (st.players.length : Int) - 1
        else st.currentTurn - 1) ∧
      (st.previousTurn.1.round =
        if st.currentTurn = 0 then max 1 (st.round - 1) else st.round) ∧
      1 ≤ st.previousTurn.1.round ∧
      st.previousTurn.2 =
        st.previousTurn.1.players.get? st.previousTurn.1.currentTurn.toNat ∧
      st.previousTurn.2.isSome = true) := by
  constructor
  · rintro (h | h) <;> simp [Initiative.previousTurn, h]
  · intro ha hne h0 hlt hr
    have hlen : st.players.length ≠ 0 := by omega
    rw [Initiative.previousTurn, if_neg (by simp [ha, hlen])]
    dsimp only
    by_cases hz : st.currentTurn = 0
    · rw [if_pos (show st.currentTurn - 1 < 0 by omega)]
      rw [getCurrentPlayer_inbounds _ (by simpa using ha) (by simp <;> omega)
        (by simp <;> omega)]
      dsimp only
      refine ⟨rfl, by simp [hz], ?_, ?_, rfl, ?_⟩
      · rw [if_pos hz]
        split <;> omega
      · split <;> omega
      · apply get?_isSome_of_lt
        omega
    · rw [if_neg (show ¬ (st.currentTurn - 1 < 0) by omega)]
      rw [getCurrentPlayer_inbounds _ (by simpa using ha) (by simp <;> omega)
        (by simp <;> omega)]
      dsimp only
      refine ⟨rfl, by simp [hz], by simp [hz], by simpa using hr, rfl, ?_⟩
      apply get?_isSome_of_lt
      omega

/-- C9 witness: retreating from the start of round 1 in a 3-player encounter
wraps the index to 2 and keeps the round at 1. -/
theorem claim_c9_witness :
    ((stABC.startEncounter).1.previousTurn.1.players = (stABC.startEncounter).1.players) ∧
    ((stABC.startEncounter).1.previousTurn.1.currentTurn =
      if (stABC.startEncounter).1.currentTurn = 0
      then (((stABC.startEncounter).1.players.length : Int)) - 1
      else (stABC.startEncounter).1.currentTurn - 1) ∧
    ((stABC.startEncounter).1.previousTurn.1.round =
      if (stABC.startEncounter).1.currentTurn = 0
      then max 1 ((stABC.startEncounter).1.round - 1)
      else (stABC.startEncounter).1.round) ∧
    1 ≤ (stABC.startEncounter).1.previousTurn.1.round ∧
    (stABC.startEncounter).1.previousTurn.2 =
      (stABC.startEncounter).1.previousTurn.1.players.get?
        (stABC.startEncounter).1.previousTurn.1.currentTurn.toNat ∧
    (stABC.startEncounter).1.previousTurn.2.isSome = true :=
  (claim_c9 (stABC.startEncounter).1).2 (by decide) (by decide) (by decide)
    (by decide) (by decide)

/-- C2: for every engine state and id present in the order, `removePlayer`
returns true, deletes exactly that combatant, and repairs `currentIndex` by
the spec's case split (`removeRepairSpec`): empty ⇒ 0, removed < current ⇒
decrement, removed == current ⇒ wrap to 0 iff now out of range, removed >
current ⇒ unchanged, then the final clamp into `[0, len-1]`. -/
theorem claim_c2 (st : Initiative) (pid : String) (i : Nat)
    (h : st.players.findIdx? (fun p => p.id == pid) = some i) :
    st.removePlayer pid =
      ({ st with players := st.players.eraseIdx i,
                 currentTurn :=
                   removeRepairSpec st.currentTurn i (st.players.eraseIdx i).length },
       true) := by
  simp only [Initiative.removePlayer, h]
  by_cases hlen : (st.players.eraseIdx i).length = 0
  · rw [if_pos (by simp [hlen]), removeRepairSpec, if_pos hlen]
  · rw [if_neg (by simp [hlen]), removeRepairSpec, if_neg hlen]
    dsimp only
    congr 1
    simp only [beq_iff_eq, ge_iff_le]

/-- C2 witness: removing the current, last combatant of a 3-element order
(the spec's wrap-to-0 scenario). -/
theorem claim_c2_witness :
    ({ stABC with currentTurn := 2 }).removePlayer "c" =
      ({ { stABC with currentTurn := 2 } with
          players := ({ stABC with currentTurn := 2 }).players.eraseIdx 2,
          currentTurn :=
            removeRepairSpec ({ stABC with currentTurn := 2 }).currentTurn 2
              (({ stABC with currentTurn := 2 }).players.eraseIdx 2).length },
       true) :=
  claim_c2 { stABC with currentTurn := 2 } "c" 2 (by decide)

/-- C7 counterexample: `setInitiativeOrder` with a 4-id list (one id unknown)
against a 3-element order DOES apply — it reorders the players and resets
`currentTurn` — refuting "applies only when the provided id list's length
matches the current order's length exactly". -/
theorem claim_c7_counterexample :
    stABC.setInitiativeOrder ["c", "b", "a", "x"] =
      { stABC with
        players := [mkPlayer "c" 10 0, mkPlayer "b" 15 0, mkPlayer "a" 20 0],
        currentTurn := 0 } ∧
    (["c", "b", "a", "x"] : List String).length ≠ stABC.players.length := by
  decide

/-- C7 amended: `setInitiativeOrder` applies exactly when the number of
provided ids that resolve (with multiplicity) to players of the current order
equals the order's length; in particular any strictly shorter id list is
silently ignored leaving the state unchanged, and on success the order
becomes the resolved players in the given id order with `currentTurn` reset
to 0. -/
theorem claim_c7_amended (st : Initiative) (playerIds : List String) :
    ((playerIds.filterMap fun id => st.getPlayer id).length = st.players.length →
      st.setInitiativeOrder playerIds =
        { st with players := playerIds.filterMap fun id => st.getPlayer id,
                  currentTurn := 0 }) ∧
    ((playerIds.filterMap fun id => st.getPlayer id).length ≠ st.players.length →
      st.setInitiativeOrder playerIds = st) ∧
    (playerIds.length < st.players.length → st.setInitiativeOrder playerIds = st) := by
  refine ⟨?_, ?_, ?_⟩
  · intro hc
    simp [Initiative.setInitiativeOrder, hc]
  · intro hc
    simp [Initiative.setInitiativeOrder, hc]
  · intro hlt
    have hle := List.length_filterMap_le (fun id => st.getPlayer id) playerIds
    have hc : (playerIds.filterMap fun id => st.getPlayer id).length ≠
        st.players.length := by omega
    simp [Initiative.setInitiativeOrder, hc]

/-- C7 witness (amended claim): a 2-id list against the 3-player order is
ignored. -/
theorem claim_c7_witness : stABC.setInitiativeOrder ["c", "a"] = stABC :=
  (claim_c7_amended stABC ["c", "a"]).2.2 (by decide)

/-- The final safety clamp lands in `[0, n-1]` whenever `n ≠ 0`, and at 0
when `n = 0`. -/
theorem clamp_mem (ct : Int) (n : Nat) :
    0 ≤ max 0 (min ct ((n : Int) - 1)) ∧
    (n ≠ 0 → max 0 (min ct ((n : Int) - 1)) < (n : Int)) ∧
    (n = 0 → max 0 (min ct ((n : Int) - 1)) = 0) := by
  refine ⟨le_max_left _ _, ?_, ?_⟩
  · intro hn
    have hub : max 0 (min ct ((n : Int) - 1)) ≤ (n : Int) - 1 :=
      max_le (by omega) (min_le_right _ _)
    omega
  · intro hn
    subst hn
    have hub : max 0 (min ct ((0 : Nat) : Int) - 1) ≤ 0 := by
      apply max_le le_rfl
      have := min_le_right ct (((0 : Nat) : Int) - 1)
      omega
    have hlb := le_max_left (0 : Int) (min ct (((0 : Nat) : Int) - 1))
    omega

/-- Each `add`/`remove`/`move` call preserves the turn-pointer invariant. -/
theorem inv_applyOp (st : Initiative) (op : EngineOp) (h : EngineInv st) :
    EngineInv (applyOp st op) := by
  obtain ⟨h1, h2⟩ := h
  cases op with
  | add player =>
    dsimp only [applyOp, Initiative.addPlayer]
    by_cases hid : (player.id == "") = true
    · rw [if_pos hid]; exact ⟨h1, h2⟩
    · rw [if_neg hid]
      rcases hfind : st.players.find? (fun p => p.id == player.id) with _ | q
      · simp only [hfind]
        constructor
        · intro hemp
          exact absurd hemp (by simp)
        · intro _
          dsimp only
          rcases Decidable.em (st.players = []) with he | hne
          · have hz := h1 he
            simp [he, hz]
          · have hb := h2 hne
            simp only [List.length_append, List.length_cons, List.length_nil]
            push_cast
            omega
      · simp only [hfind]
        exact ⟨h1, h2⟩
  | remove playerId =>
    dsimp only [applyOp, Initiative.removePlayer]
    rcases hfind : st.players.findIdx? (fun p => p.id == playerId) with _ | index
    · simp only [hfind]
      exact ⟨h1, h2⟩
    · simp only [hfind]
      by_cases hlen : (st.players.eraseIdx index).length = 0
      · rw [if_pos (by simpa using hlen)]
        dsimp only
        constructor
        · intro _; rfl
        · intro hne
          dsimp only at hne
          exact absurd (List.length_eq_zero.mp hlen) hne
      · rw [if_neg (by simpa using hlen)]
        dsimp only
        obtain ⟨hl, hu, _⟩ := clamp_mem
          (if (index : Int) < st.currentTurn then st.currentTurn - 1
           else if ((index : Int) == st.currentTurn) = true then
             (if ((st.players.eraseIdx index).length : Int) ≤ st.currentTurn then 0
              else st.currentTurn)
           else st.currentTurn)
          (st.players.eraseIdx index).length
        exact ⟨fun hemp => absurd (List.length_eq_zero.mpr hemp) hlen,
               fun _ => ⟨hl, hu hlen⟩⟩
  | move fromIndex toIndex =>
    dsimp only [applyOp, Initiative.movePlayer]
    by_cases hb : (fromIndex < 0 || fromIndex ≥ (st.players.length : Int) ||
        toIndex < 0 || toIndex ≥ (st.players.length : Int)) = true
    · rw [if_pos hb]; exact ⟨h1, h2⟩
    · rw [if_neg hb]
      by_cases heq : (fromIndex == toIndex) = true
      · rw [if_pos heq]; exact ⟨h1, h2⟩
      · rw [if_neg heq]
        rcases hget : st.players.get? fromIndex.toNat with _ | player
        · simp only [hget]
          exact ⟨h1, h2⟩
        · simp only [hget]
          obtain ⟨hl, hu, hz⟩ := clamp_mem
            (if st.currentTurn == fromIndex then toIndex
             else if fromIndex < st.currentTurn && toIndex ≥ st.currentTurn then
               st.currentTurn - 1
             else if fromIndex > st.currentTurn && toIndex ≤ st.currentTurn then
               st.currentTurn + 1
             else st.currentTurn)
            ((st.players.eraseIdx fromIndex.toNat).insertIdx toIndex.toNat player).length
          constructor
          · intro hemp
            exact hz (List.length_eq_zero.mpr hemp)
          · intro hne
            refine ⟨hl, hu ?_⟩
            intro hc
            exact hne (List.length_eq_zero.mp hc)

/-- C1: starting from any state satisfying the turn-pointer invariant (the
fresh engine `Initiative.new` does), every finite sequence of
`add`/`remove`/`move` operations preserves it: with a non-empty order
`0 <= currentIndex < len(order)`, and with an empty order `currentIndex = 0`
and the current-combatant query returns absent. -/
theorem claim_c1 (st : Initiative) (ops : List EngineOp) (h : EngineInv st) :
    EngineInv (runOps st ops) ∧ EngineInv Initiative.new ∧
    ((runOps st ops).players = [] →
      (runOps st ops).currentTurn = 0 ∧ ((runOps st ops).getCurrentPlayer).2 = none) := by
  have hrun : ∀ (ops : List EngineOp) (st : Initiative),
      EngineInv st → EngineInv (runOps st ops) := by
    intro ops
    induction ops with
    | nil => intro st h; exact h
    | cons op rest ih =>
      intro st h
      exact ih _ (inv_applyOp st op h)
  refine ⟨hrun ops st h, by constructor <;> simp [Initiative.new], ?_⟩
  intro hemp
  refine ⟨(hrun ops st h).1 hemp, ?_⟩
  simp [Initiative.getCurrentPlayer, hemp]

/-- C1 witness: the invariant holds after a concrete add/add/remove/move
sequence from the fresh engine. -/
theorem claim_c1_witness :
    EngineInv (runOps Initiative.new
      [.add (mkPlayer "a" 20 0), .add (mkPlayer "b" 15 0),
       .move 0 1, .remove "a"]) :=
  (claim_c1 Initiative.new
    [.add (mkPlayer "a" 20 0), .add (mkPlayer "b" 15 0),
     .move 0 1, .remove "a"] (by constructor <;> simp [Initiative.new])).1

/-- `Player.fromJSON` succeeds on any non-null record whose (defaulted)
character type is valid, and defaults a missing `conditions`/`actions` list
to empty. -/
theorem player_fromJSON_ok (q : PlayerData)
    (hv : jsOrStr q.type? "player" = "player" ∨ jsOrStr q.type? "player" = "monster" ∨
      jsOrStr q.type? "player" = "npc") :
    ∃ p, Player.fromJSON "" (some q) = .ok p ∧
      p.conditions = q.conditions.getD [] ∧ p.actions = q.actions.getD [] := by
  show ∃ p, (if (!(jsOrStr q.type? "player" == "player" ||
      jsOrStr q.type? "player" == "monster" ||
      jsOrStr q.type? "player" == "npc")) = true then
      (Except.error "Invalid character type" : Except String Player)
    else _) = .ok p ∧ _
  rw [if_neg (by rcases hv with hv | hv | hv <;> simp [hv])]
  exact ⟨_, rfl, rfl, rfl⟩

/-- Mapping `Player.fromJSON` over a list of non-null, valid-type records
succeeds, preserves length, and defaults each missing conditions/actions
list. -/
theorem playersFromJSON_ok (ps : List (Option PlayerData))
    (h : ∀ pd ∈ ps, ∃ q, pd = some q ∧
      (jsOrStr q.type? "player" = "player" ∨ jsOrStr q.type? "player" = "monster" ∨
       jsOrStr q.type? "player" = "npc")) :
    ∃ players, playersFromJSON ps = .ok players ∧ players.length = ps.length ∧
      ∀ i q, ps.get? i = some (some q) →
        ∃ p, players.get? i = some p ∧
          p.conditions = q.conditions.getD [] ∧ p.actions = q.actions.getD [] := by
  induction ps with
  | nil =>
    refine ⟨[], rfl, rfl, ?_⟩
    intro i q hq
    simp at hq
  | cons pd rest ih =>
    obtain ⟨q, rfl, hv⟩ := h pd (List.mem_cons_self _ _)
    obtain ⟨p, hp, hc, ha2⟩ := player_fromJSON_ok q hv
    obtain ⟨players, hps, hlen, hget⟩ := ih fun x hx => h x (List.mem_cons_of_mem _ hx)
    refine ⟨p :: players, ?_, by simp [hlen], ?_⟩
    · simp only [playersFromJSON, hp, hps]
      rfl
    · intro i r hr
      cases i with
      | zero =>
        simp at hr
        subst hr
        exact ⟨p, rfl, hc, ha2⟩
      | succ j =>
        simp only [List.get?_cons_succ] at hr ⊢
        exact hget j r hr

/-- C8 counterexample: a non-null stored record whose `players` array
contains a null entry makes `Initiative.fromJSON` fail (the nested
`Player.fromJSON` throws), refuting "for any other record it succeeds". -/
theorem claim_c8_counterexample :
    Initiative.fromJSON (some badData) =
      .error "Cannot create Player from null/undefined data" ∧
    badData ≠ { players := none, currentTurn := none, round := none,
                isActive := none, turnHistory := none } := by
  constructor
  · rfl
  · decide

/-- C8 amended: `fromJSON` fails for a null/absent top-level record (and when
a stored player entry is null or carries an invalid character type); for
every other record it succeeds, defaulting a missing `round` to 1, a missing
history to empty and a player's missing conditions list to empty, with the
restored `currentIndex` re-clamped into `[0, len-1]` (0 when empty) even
when the stored value is out of range. -/
theorem claim_c8_amended (d : InitiativeData)
    (h : ∀ pd ∈ d.players.getD [], ∃ q, pd = some q ∧
      (jsOrStr q.type? "player" = "player" ∨ jsOrStr q.type? "player" = "monster" ∨
       jsOrStr q.type? "player" = "npc")) :
    (Initiative.fromJSON none = .error "Cannot create Initiative from null/undefined data") ∧
    ∃ st, Initiative.fromJSON (some d) = .ok st ∧
      (d.round = none → st.round = 1) ∧
      (d.turnHistory = none → st.turnHistory = []) ∧
      st.players.length = (d.players.getD []).length ∧
      0 ≤ st.currentTurn ∧
      (st.players = [] → st.currentTurn = 0) ∧
      (st.players ≠ [] → st.currentTurn < (st.players.length : Int)) ∧
      (∀ i q, (d.players.getD []).get? i = some (some q) → q.conditions = none →
        ∃ p, st.players.get? i = some p ∧ p.conditions = []) := by
  refine ⟨rfl, ?_⟩
  rcases hps : d.players with _ | ps
  · refine ⟨_, by simp only [Initiative.fromJSON, hps]; rfl, ?_⟩
    refine ⟨fun hr => by simp [jsOrInt, hr], fun ht => by simp [ht], by simp [hps],
      by simp, fun _ => by simp, fun hne => absurd rfl hne, ?_⟩
    intro i q hq
    simp at hq
  · rw [hps] at h
    obtain ⟨players, hok, hlen, hget⟩ := playersFromJSON_ok ps h
    refine ⟨_, by simp only [Initiative.fromJSON, hps, hok]; rfl, ?_⟩
    refine ⟨fun hr => by simp [jsOrInt, hr], fun ht => by simp [ht],
      by simpa [hps] using hlen, ?_, ?_, ?_, ?_⟩
    · dsimp only
      split
      · exact (clamp_mem (jsOrInt d.currentTurn 0) players.length).1
      · exact le_rfl
    · intro hemp
      dsimp only at hemp ⊢
      rw [if_neg (by simp [hemp])]
    · intro hne
      dsimp only at hne ⊢
      have hlen0 : players.length ≠ 0 := fun hc => hne (List.length_eq_zero.mp hc)
      rw [if_pos (by omega)]
      exact (clamp_mem (jsOrInt d.currentTurn 0) players.length).2.1 hlen0
    · intro i q hq hcn
      simp only [Option.getD_some] at hq
      obtain ⟨p, hp, hc, _⟩ := hget i q hq
      refine ⟨p, hp, ?_⟩
      rw [hc, hcn]
      rfl

/-- C8 witness (amended claim): a record with one well-formed player entry,
an out-of-range stored `currentTurn` of 57 and all optional fields absent
restores with `round = 1`, empty history and `currentTurn` clamped to 0. -/
theorem claim_c8_witness :
    (Initiative.fromJSON none =
      .error "Cannot create Initiative from null/undefined data") ∧
    ∃ st, Initiative.fromJSON (some goodData) = .ok st ∧
      (goodData.round = none → st.round = 1) ∧
      (goodData.turnHistory = none → st.turnHistory = []) ∧
      st.players.length = (goodData.players.getD []).length ∧
      0 ≤ st.currentTurn ∧
      (st.players = [] → st.currentTurn = 0) ∧
      (st.players ≠ [] → st.currentTurn < (st.players.length : Int)) ∧
      (∀ i q, (goodData.players.getD []).get? i = some (some q) →
        q.conditions = none →
        ∃ p, st.players.get? i = some p ∧ p.conditions = []) :=
  claim_c8_amended goodData
    (by intro pd hpd; simp [goodData] at hpd; subst hpd; exact ⟨_, rfl, Or.inl rfl⟩)

/-- `recordTurn` under an in-bounds active state only appends the history
entry for the current player. -/
theorem recordTurn_eq (st : Initiative) (p : Player) (ha : st.isActive = true)
    (h0 : 0 ≤ st.currentTurn) (hlt : st.currentTurn < (st.players.length : Int))
    (hp : st.players.get? st.currentTurn.toNat = some p) :
    st.recordTurn = { st with turnHistory := st.turnHistory ++
      [{ playerId := p.id, playerName := p.name,
         turn := st.currentTurn, round := st.round }] } := by
  simp only [Initiative.recordTurn, getCurrentPlayer_inbounds st ha h0 hlt, hp]

/-- `processEndOfTurn` under an in-bounds active state clears the current
player's action log in place. -/
theorem processEndOfTurn_eq (st : Initiative) (p : Player) (ha : st.isActive = true)
    (h0 : 0 ≤ st.currentTurn) (hlt : st.currentTurn < (st.players.length : Int))
    (hp : st.players.get? st.currentTurn.toNat = some p) :
    st.processEndOfTurn =
      { st with players := st.players.set st.currentTurn.toNat { p with actions := [] } } := by
  simp only [Initiative.processEndOfTurn, getCurrentPlayer_inbounds st ha h0 hlt, hp]

/-- `processStartOfTurn` under an in-bounds active state runs
`updateConditions` on the current player in place. -/
theorem processStartOfTurn_eq (st : Initiative) (p : Player) (ha : st.isActive = true)
    (h0 : 0 ≤ st.currentTurn) (hlt : st.currentTurn < (st.players.length : Int))
    (hp : st.players.get? st.currentTurn.toNat = some p) :
    st.processStartOfTurn =
      { st with players := st.players.set st.currentTurn.toNat p.updateConditions } := by
  simp only [Initiative.processStartOfTurn, getCurrentPlayer_inbounds st ha h0 hlt, hp]

theorem nextTurn_nowrap (st : Initiative) (p : Player) (ha : st.isActive = true)
    (h0 : 0 ≤ st.currentTurn) (hlt : st.currentTurn + 1 < (st.players.length : Int))
    (hp : st.players.get? st.currentTurn.toNat = some p) :
    (st.nextTurn).1.isActive = true ∧
    (st.nextTurn).1.players.length = st.players.length ∧
    (st.nextTurn).1.round = st.round ∧
    (st.nextTurn).1.currentTurn = st.currentTurn + 1 ∧
    (∀ j : Nat, j ≠ (st.currentTurn + 1).toNat →
      ((st.nextTurn).1.players.get? j).map Player.conditions =
        (st.players.get? j).map Player.conditions) ∧
    (((st.nextTurn).1.players.get? (st.currentTurn + 1).toNat).map Player.conditions =
      (st.players.get? (st.currentTurn + 1).toNat).map fun r => r.updateConditions.conditions) ∧
    (st.nextTurn).2 = (st.nextTurn).1.players.get? (st.currentTurn + 1).toNat := by
  obtain ⟨players, ct, round, active, hist⟩ := st
  dsimp only at ha h0 hlt hp ⊢
  subst ha
  have hlen : players.length ≠ 0 := by omega
  have hct : ct.toNat < players.length := by omega
  have hct1 : (ct + 1).toNat < players.length := by omega
  have hctne : ct.toNat ≠ (ct + 1).toNat := by omega
  obtain ⟨q, hq⟩ : ∃ q, players.get? (ct + 1).toNat = some q := by
    rw [List.get?_eq_get hct1]
    exact ⟨_, rfl⟩
  have hc0 : ¬ (ct < 0) := by omega
  have hcge : ¬ (ct ≥ (players.length : Int)) := by omega
  have hwrap : ¬ (ct + 1 ≥ (players.length : Int)) := by omega
  have hc10 : ¬ (ct + 1 < 0) := by omega
  have hset1 : ∀ (a : Player), (players.set ct.toNat a).get? (ct + 1).toNat =
      players.get? (ct + 1).toNat := fun a => List.get?_set_ne a _ hctne
  have hset2 : ∀ (a b : Player),
      ((players.set ct.toNat a).set (ct + 1).toNat b).get? (ct + 1).toNat = some b :=
    fun a b => List.get?_set_eq_of_lt _ (by simpa using hct1)
  simp only [Initiative.nextTurn, Initiative.recordTurn, Initiative.processEndOfTurn,
    Initiative.processStartOfTurn, Initiative.getCurrentPlayer, Bool.not_true,
    Bool.false_or, beq_iff_eq, hlen, if_false, hp, hc0, hcge, hwrap, hc10,
    List.length_set, hset1, hq, hset2, decide_eq_true_eq, ite_false, ite_true,
    decide_False, decide_True, Bool.or_self, Bool.false_eq_true, if_neg, hct1]
  refine ⟨trivial, trivial, trivial, trivial, ?_, by simp, trivial⟩
  intro j hj
  rw [List.get?_set_ne _ _ (Ne.symm hj)]
  by_cases hj2 : j = ct.toNat
  · subst hj2
    rw [List.get?_set_eq_of_lt _ hct, hp]
    rfl
  · rw [List.get?_set_ne _ _ fun hh => hj2 hh.symm]


theorem nextTurn_wrap (st : Initiative) (p : Player) (ha : st.isActive = true)
    (h0 : 0 ≤ st.currentTurn) (hlt : st.currentTurn < (st.players.length : Int))
    (hw : st.currentTurn + 1 ≥ (st.players.length : Int))
    (hp : st.players.get? st.currentTurn.toNat = some p) :
    (st.nextTurn).1.isActive = true ∧
    (st.nextTurn).1.players.length = st.players.length ∧
    (st.nextTurn).1.round = st.round + 1 ∧
    (st.nextTurn).1.currentTurn = 0 ∧
    (∀ j : Nat, j ≠ 0 →
      ((st.nextTurn).1.players.get? j).map Player.conditions =
        (st.players.get? j).map Player.conditions) ∧
    (((st.nextTurn).1.players.get? 0).map Player.conditions =
      (st.players.get? 0).map fun r => r.updateConditions.conditions) ∧
    (st.nextTurn).2 = (st.nextTurn).1.players.get? 0 := by
  obtain ⟨players, ct, round, active, hist⟩ := st
  dsimp only at ha h0 hlt hw hp ⊢
  subst ha
  have hlen : players.length ≠ 0 := by omega
  have hct : ct.toNat < players.length := by omega
  have h0lt : 0 < players.length := by omega
  have hc0 : ¬ (ct < 0) := by omega
  have hcge : ¬ (ct ≥ (players.length : Int)) := by omega
  have hz1 : ¬ ((0 : Int) < 0) := by omega
  have hz2 : ¬ ((0 : Int) ≥ (players.length : Int)) := by omega
  by_cases hone : ct.toNat = 0
  · have hset0 : ∀ (a : Player), (players.set ct.toNat a).get? (0 : Nat) = some a := by
      intro a
      rw [hone]
      exact List.get?_set_eq_of_lt _ h0lt
    have hset2 : ∀ (a b : Player),
        ((players.set ct.toNat a).set 0 b).get? (0 : Nat) = some b :=
      fun a b => List.get?_set_eq_of_lt _ (by simpa using h0lt)
    have hp0 : players.get? (0 : Nat) = some p := by rw [← hone]; exact hp
    simp only [Initiative.nextTurn, Initiative.recordTurn, Initiative.processEndOfTurn,
      Initiative.processStartOfTurn, Initiative.getCurrentPlayer, Bool.not_true,
      Bool.false_or, beq_iff_eq, hlen, if_false, hp, hc0, hcge, hw, hz1, hz2,
      List.length_set, hset0, hset2, decide_eq_true_eq, ite_false, ite_true,
      decide_False, decide_True, Bool.or_self, Bool.false_eq_true, Int.toNat_zero,
      if_true, hp0]
    refine ⟨trivial, trivial, trivial, trivial, ?_, by simp [Player.updateConditions], trivial⟩
    intro j hj
    rw [List.get?_set_ne _ _ (Ne.symm hj), List.get?_set_ne _ _ (by omega)]
  · obtain ⟨q, hq⟩ : ∃ q, players.get? (0 : Nat) = some q := by
      rw [List.get?_eq_get h0lt]
      exact ⟨_, rfl⟩
    have hset0 : ∀ (a : Player), (players.set ct.toNat a).get? (0 : Nat) =
        players.get? (0 : Nat) := fun a => List.get?_set_ne a _ hone
    have hset2 : ∀ (a b : Player),
        ((players.set ct.toNat a).set 0 b).get? (0 : Nat) = some b :=
      fun a b => List.get?_set_eq_of_lt _ (by simpa using h0lt)
    simp only [Initiative.nextTurn, Initiative.recordTurn, Initiative.processEndOfTurn,
      Initiative.processStartOfTurn, Initiative.getCurrentPlayer, Bool.not_true,
      Bool.false_or, beq_iff_eq, hlen, if_false, hp, hc0, hcge, hw, hz1, hz2,
      List.length_set, hset0, hset2, decide_eq_true_eq, ite_false, ite_true,
      decide_False, decide_True, Bool.or_self, Bool.false_eq_true, Int.toNat_zero,
      if_true, hq]
    refine ⟨trivial, trivial, trivial, trivial, ?_, by simp, trivial⟩
    intro j hj
    rw [List.get?_set_ne _ _ (Ne.symm hj)]
    by_cases hj2 : j = ct.toNat
    · subst hj2
      rw [List.get?_set_eq_of_lt _ hct, hp]
      rfl
    · rw [List.get?_set_ne _ _ fun hh => hj2 hh.symm]

/-- C3: from a fresh `startEncounter()` on a non-empty order of `n`
combatants, `advance()` stays in round 1 with `currentIndex = k` after `k`
calls for every `k < n`, and the `n`-th call returns `currentIndex` to 0 and
makes the round exactly 2. -/
theorem claim_c3 (st : Initiative) (h : st.players ≠ []) :
    (∀ k, k < st.players.length →
      (advanceN (st.startEncounter).1 k).currentTurn = (k : Int) ∧
      (advanceN (st.startEncounter).1 k).round = 1) ∧
    (advanceN (st.startEncounter).1 st.players.length).currentTurn = 0 ∧
    (advanceN (st.startEncounter).1 st.players.length).round = 2 := by
  have hlen : st.players.length ≠ 0 := fun hc => h (List.length_eq_zero.mp hc)
  have hstart : (st.startEncounter).1 =
      { st with isActive := true, currentTurn := 0, round := 1, turnHistory := [] } := by
    rw [Initiative.startEncounter, if_neg (by simp [hlen])]
  have key : ∀ k, k < st.players.length →
      (advanceN (st.startEncounter).1 k).isActive = true ∧
      (advanceN (st.startEncounter).1 k).players.length = st.players.length ∧
      (advanceN (st.startEncounter).1 k).currentTurn = (k : Int) ∧
      (advanceN (st.startEncounter).1 k).round = 1 := by
    intro k
    induction k with
    | zero =>
      intro _
      rw [advanceN, hstart]
      exact ⟨rfl, rfl, rfl, rfl⟩
    | succ k ih =>
      intro hk
      obtain ⟨hact, hl, hct, hrd⟩ := ih (by omega)
      obtain ⟨q, hq⟩ : ∃ q, (advanceN (st.startEncounter).1 k).players.get?
          (advanceN (st.startEncounter).1 k).currentTurn.toNat = some q := by
        rw [List.get?_eq_get (by rw [hl, hct]; simp; omega)]
        exact ⟨_, rfl⟩
      obtain ⟨ha', hl', hrd', hct', _⟩ :=
        nextTurn_nowrap (advanceN (st.startEncounter).1 k) q hact
          (by rw [hct]; omega)
          (by rw [hct, hl]; push_cast; omega)
          hq
      rw [hct] at hct'
      rw [hrd] at hrd'
      rw [hl] at hl'
      refine ⟨ha', hl', ?_, hrd'⟩
      rw [show advanceN (st.startEncounter).1 (k + 1) =
        ((advanceN (st.startEncounter).1 k).nextTurn).1 from rfl, hct']
      push_cast
      ring
  obtain ⟨hact, hl, hct, hrd⟩ := key (st.players.length - 1) (by omega)
  obtain ⟨q, hq⟩ : ∃ q, (advanceN (st.startEncounter).1 (st.players.length - 1)).players.get?
      (advanceN (st.startEncounter).1 (st.players.length - 1)).currentTurn.toNat = some q := by
    rw [List.get?_eq_get (by rw [hl, hct]; simp; omega)]
    exact ⟨_, rfl⟩
  obtain ⟨_, _, hrd', hct', _⟩ :=
    nextTurn_wrap (advanceN (st.startEncounter).1 (st.players.length - 1)) q hact
      (by rw [hct]; omega)
      (by rw [hct, hl]; push_cast; omega)
      (by rw [hct, hl]; push_cast; omega)
      hq
  have hstep : advanceN (st.startEncounter).1 st.players.length =
      ((advanceN (st.startEncounter).1 (st.players.length - 1)).nextTurn).1 := by
    have hn : st.players.length = (st.players.length - 1) + 1 := by omega
    rw [hn]
    rfl
  refine ⟨fun k hk => ⟨(key k hk).2.2.1, (key k hk).2.2.2⟩, ?_, ?_⟩
  · rw [hstep, hct']
  · rw [hstep, hrd', hrd]
    norm_num

/-- C3 witness: the three-player scenario (A 20, B 15, C 10). -/
theorem claim_c3_witness :
    (∀ k, k < stABC.players.length →
      (advanceN (stABC.startEncounter).1 k).currentTurn = (k : Int) ∧
      (advanceN (stABC.startEncounter).1 k).round = 1) ∧
    (advanceN (stABC.startEncounter).1 stABC.players.length).currentTurn = 0 ∧
    (advanceN (stABC.startEncounter).1 stABC.players.length).round = 2 :=
  claim_c3 stABC (by decide)

/-- `decayCondition` keeps exactly the originally-permanent conditions among
its output (a decremented condition is dropped before it can masquerade as
permanent). -/
theorem updateConditions_permanents (l : List Condition) :
    (l.filterMap Player.decayCondition).filter (fun c => c.duration == -1) =
      l.filter fun c => c.duration == -1 := by
  induction l with
  | nil => rfl
  | cons c l ih =>
    rw [List.filterMap_cons]
    by_cases h1 : c.duration = -1
    · rw [Player.decayCondition, if_pos (by simpa using h1)]
      rw [List.filter_cons, List.filter_cons, if_pos (by simpa using h1),
        if_pos (by simpa using h1), ih]
    · rw [Player.decayCondition, if_neg (by simpa using h1)]
      dsimp only
      by_cases h2 : c.duration - 1 ≥ 0
      · rw [if_pos h2, List.filter_cons, List.filter_cons,
          if_neg (by simp; omega), if_neg (by simpa using h1), ih]
      · rw [if_neg h2, List.filter_cons, if_neg (by simpa using h1), ih]

/-- Every condition surviving `decayCondition` carries the name of a
condition already present. -/
theorem updateConditions_name (l : List Condition) (c' : Condition)
    (h : c' ∈ l.filterMap Player.decayCondition) :
    ∃ c ∈ l, c'.name = c.name := by
  rw [List.mem_filterMap] at h
  obtain ⟨c, hc, hf⟩ := h
  rw [Player.decayCondition] at hf
  by_cases h1 : c.duration = -1
  · rw [if_pos (by simpa using h1)] at hf
    exact ⟨c, hc, by rw [← Option.some_inj.mp hf]⟩
  · rw [if_neg (by simpa using h1)] at hf
    dsimp only at hf
    by_cases h2 : c.duration - 1 ≥ 0
    · rw [if_pos h2] at hf
      exact ⟨c, hc, by rw [← Option.some_inj.mp hf]⟩
    · rw [if_neg h2] at hf
      exact absurd hf (by simp)

/-- C4: `updateConditions` decrements every non-permanent condition by 1 and
drops exactly those whose duration is then below 0, never touching permanent
(`-1`) conditions; a condition added with duration 1 satisfies `hasCondition`
immediately, still after one `updateConditions` call, and is gone after the
second; and `nextTurn` ticks conditions only on the new current combatant at
its turn start. -/
theorem claim_c4 (p : Player) (cn : String) (hcn : cn ≠ "") (htrim : jsTrim cn = cn)
    (hfresh : ∀ c ∈ p.conditions, c.name ≠ cn) :
    (∀ q : Player, (q.updateConditions).conditions =
      q.conditions.filterMap fun c =>
        if c.duration = -1 then some c
        else if c.duration - 1 < 0 then none
        else some { c with duration := c.duration - 1 }) ∧
    (∀ q : Player, (q.updateConditions).conditions.filter (fun c => c.duration == -1) =
      q.conditions.filter fun c => c.duration == -1) ∧
    (∃ p1 cond, p.addCondition cn 1 "" = .ok (p1, cond) ∧
      p1.hasCondition cn = true ∧
      (p1.updateConditions).hasCondition cn = true ∧
      ((p1.updateConditions).updateConditions).hasCondition cn = false) ∧
    (∀ st : Initiative, ∀ q : Player, st.isActive = true → 0 ≤ st.currentTurn →
      st.currentTurn < (st.players.length : Int) →
      st.players.get? st.currentTurn.toNat = some q →
      (∀ j : Nat, j ≠ (st.nextTurn).1.currentTurn.toNat →
        ((st.nextTurn).1.players.get? j).map Player.conditions =
          (st.players.get? j).map Player.conditions) ∧
      ((st.nextTurn).1.players.get? (st.nextTurn).1.currentTurn.toNat).map Player.conditions =
        (st.players.get? (st.nextTurn).1.currentTurn.toNat).map
          fun r => r.updateConditions.conditions) := by
  refine ⟨?_, ?_, ?_, ?_⟩
  · intro q
    simp only [Player.updateConditions]
    congr 1
    funext c
    rw [Player.decayCondition]
    by_cases h1 : c.duration = -1
    · simp [h1]
    · by_cases h2 : c.duration - 1 ≥ 0
      · simp [h1, h2, show ¬ (c.duration - 1 < 0) by omega]
      · simp [h1, h2, show c.duration - 1 < 0 by omega]
  · intro q
    simp only [Player.updateConditions]
    exact updateConditions_permanents q.conditions
  · rw [Player.addCondition, if_neg (by simpa using hcn)]
    rw [htrim]
    refine ⟨_, _, rfl, ?_, ?_, ?_⟩
    · simp [Player.hasCondition]
    · simp only [Player.updateConditions, Player.hasCondition, List.filterMap_append]
      rw [List.any_append]
      rw [show List.filterMap Player.decayCondition
          [{ name := cn, duration := 1, description := "" }] =
          [{ name := cn, duration := 0, description := "" }] from rfl]
      simp
    · simp only [Player.updateConditions, Player.hasCondition, List.filterMap_append]
      rw [show List.filterMap Player.decayCondition
          [{ name := cn, duration := 1, description := "" }] =
          [({ name := cn, duration := 0, description := "" } : Condition)] from rfl]
      rw [show List.filterMap Player.decayCondition
          [({ name := cn, duration := 0, description := "" } : Condition)] =
          ([] : List Condition) from rfl]
      rw [List.append_nil, List.any_eq_false]
      intro c' hc'
      obtain ⟨c1, hc1, hn1⟩ := updateConditions_name _ c' hc'
      obtain ⟨c0, hc0, hn0⟩ := updateConditions_name _ c1 hc1
      have hne : c'.name ≠ cn := by
        rw [hn1, hn0]
        exact hfresh c0 hc0
      simpa using hne
  · intro st q ha h0 hlt hq
    by_cases hw : st.currentTurn + 1 ≥ (st.players.length : Int)
    · obtain ⟨_, _, _, hct', hju, hcu, _⟩ := nextTurn_wrap st q ha h0 hlt hw hq
      rw [hct']
      exact ⟨fun j hj => hju j (by simpa using hj), by simpa using hcu⟩
    · obtain ⟨_, _, _, hct', hju, hcu, _⟩ := nextTurn_nowrap st q ha h0 (by omega) hq
      rw [hct']
      exact ⟨hju, hcu⟩

/-- C4 witness: a fresh player and the condition name `"stunned"`. -/
theorem claim_c4_witness :
    ∃ p1 cond, (mkPlayer "w" 0 0).addCondition "stunned" 1 "" = .ok (p1, cond) ∧
      p1.hasCondition "stunned" = true ∧
      (p1.updateConditions).hasCondition "stunned" = true ∧
      ((p1.updateConditions).updateConditions).hasCondition "stunned" = false :=
  (claim_c4 (mkPlayer "w" 0 0) "stunned" (by decide) (by decide)
    (by intro c hc; simp [mkPlayer] at hc)).2.2.1

/-- `playerBefore` as an arithmetic proposition. -/
theorem playerBefore_iff (a b : Player) :
    Initiative.playerBefore a b = true ↔
      (b.initiative < a.initiative ∨
        (b.initiative = a.initiative ∧ b.initiativeModifier < a.initiativeModifier)) := by
  rw [Initiative.playerBefore]
  by_cases h : b.initiative = a.initiative
  · simp [h]
  · simp [h]

/-- The comparator is asymmetric. -/
theorem playerBefore_asymm {a b : Player} (h : Initiative.playerBefore a b = true) :
    Initiative.playerBefore b a = false := by
  rw [playerBefore_iff] at h
  rw [Bool.eq_false_iff, Ne, playerBefore_iff]
  omega

/-- Comparator pseudo-transitivity: if `x` sorts strictly before `a` while
`b` does not, then `x` sorts strictly before `b`. -/
theorem playerBefore_trans_of_not {x a b : Player}
    (h1 : Initiative.playerBefore x a = true)
    (h2 : Initiative.playerBefore b a = false) :
    Initiative.playerBefore x b = true := by
  rw [playerBefore_iff] at h1 ⊢
  rw [Bool.eq_false_iff, Ne, playerBefore_iff] at h2
  omega

/-- `sortInsert` permutes. -/
theorem sortInsert_perm (a : Player) (l : List Player) :
    (Initiative.sortInsert a l).Perm (a :: l) := by
  induction l with
  | nil => exact List.Perm.refl _
  | cons b l ih =>
    rw [Initiative.sortInsert]
    split
    · exact ((ih.cons b).trans (List.Perm.swap a b l))
    · exact List.Perm.refl _

/-- `sortPlayers` permutes. -/
theorem sortPlayers_perm (l : List Player) : (Initiative.sortPlayers l).Perm l := by
  induction l with
  | nil => exact List.Perm.refl _
  | cons b l ih =>
    rw [Initiative.sortPlayers]
    exact (sortInsert_perm b (Initiative.sortPlayers l)).trans (ih.cons b)

/-- `sortInsert` preserves sortedness (no later element strictly precedes an
earlier one). -/
theorem sortInsert_sorted (a : Player) (l : List Player)
    (h : l.Pairwise fun x y => Initiative.playerBefore y x = false) :
    (Initiative.sortInsert a l).Pairwise fun x y => Initiative.playerBefore y x = false := by
  induction l with
  | nil => exact List.pairwise_singleton _ _
  | cons b l ih =>
    rw [Initiative.sortInsert]
    rcases List.pairwise_cons.mp h with ⟨hb, hl⟩
    split
    case isTrue hba =>
      rw [List.pairwise_cons]
      refine ⟨?_, ih hl⟩
      intro x hx
      rcases List.mem_cons.mp ((sortInsert_perm a l).mem_iff.mp hx) with hxa | hxl
      · rw [hxa]
        exact playerBefore_asymm hba
      · exact hb x hxl
    case isFalse hba =>
      rw [List.pairwise_cons]
      refine ⟨?_, h⟩
      intro x hx
      rcases List.mem_cons.mp hx with hxb | hxl
      · rw [hxb]
        simpa using hba
      · rw [Bool.eq_false_iff]
        intro hxa
        have hxb2 := playerBefore_trans_of_not hxa (by simpa using hba)
        exact (Bool.eq_false_iff.mp (hb x hxl)) hxb2

/-- The sorted order produced by `sortPlayers`. -/
theorem sortPlayers_sorted (l : List Player) :
    (Initiative.sortPlayers l).Pairwise fun x y => Initiative.playerBefore y x = false := by
  induction l with
  | nil => exact List.Pairwise.nil
  | cons b l ih =>
    rw [Initiative.sortPlayers]
    exact sortInsert_sorted b _ ih

/-- Stability of one insertion step: filtering by any exact sort key is
unchanged. -/
theorem sortInsert_stable (a : Player) (l : List Player) (i m : Int) :
    (Initiative.sortInsert a l).filter
        (fun p => p.initiative == i && p.initiativeModifier == m) =
      (a :: l).filter fun p => p.initiative == i && p.initiativeModifier == m := by
  induction l with
  | nil => rfl
  | cons b l ih =>
    rw [Initiative.sortInsert]
    split
    case isTrue hba =>
      simp only [List.filter_cons]
      rw [ih]
      simp only [List.filter_cons]
      by_cases hkb : (b.initiative == i && b.initiativeModifier == m) = true
      · have hka : (a.initiative == i && a.initiativeModifier == m) = false := by
          rw [playerBefore_iff] at hba
          simp only [Bool.and_eq_true, beq_iff_eq] at hkb
          simp only [Bool.and_eq_false_iff, beq_eq_false_iff_ne, Ne]
          omega
        simp [hkb, hka]
      · simp [hkb]
    case isFalse hba => rfl

/-- Stability of `sortPlayers`: combatants with identical sort keys keep
their relative order. -/
theorem sortPlayers_stable (l : List Player) (i m : Int) :
    (Initiative.sortPlayers l).filter
        (fun p => p.initiative == i && p.initiativeModifier == m) =
      l.filter fun p => p.initiative == i && p.initiativeModifier == m := by
  induction l with
  | nil => rfl
  | cons b l ih =>
    rw [Initiative.sortPlayers, sortInsert_stable]
    simp only [List.filter_cons]
    rw [ih]

/-- In a list with distinct ids, `findIdx?` on a member's id finds exactly
that member. -/
theorem findIdx_id_of_nodup (l : List Player) (p : Player)
    (hnd : (l.map Player.id).Nodup) (hmem : p ∈ l) :
    ∃ i, l.findIdx? (fun q => q.id == p.id) = some i ∧ l.get? i = some p := by
  induction l with
  | nil => simp at hmem
  | cons b l ih =>
    rw [List.map_cons, List.nodup_cons] at hnd
    by_cases hb : b.id = p.id
    · have hbp : b = p := by
        rcases List.mem_cons.mp hmem with h | h
        · exact h.symm
        · exfalso
          exact hnd.1 (by rw [hb]; exact List.mem_map_of_mem Player.id h)
      refine ⟨0, ?_, by simpa using hbp⟩
      rw [List.findIdx?_cons, if_pos (by simpa using hb)]
    · have hpm : p ∈ l := by
        rcases List.mem_cons.mp hmem with h | h
        · exact absurd (congrArg Player.id h.symm) hb
        · exact h
      obtain ⟨i, hfind, hget⟩ := ih hnd.2 hpm
      refine ⟨i + 1, ?_, by simpa using hget⟩
      rw [List.findIdx?_cons, if_neg (by simpa using hb), List.findIdx?_succ, hfind]
      rfl


/-- `playerBefore y x = false` spelled arithmetically: `x` may stay before
`y` in descending order. -/
theorem playerBefore_false_iff (x y : Player) :
    Initiative.playerBefore y x = false ↔
      (y.initiative < x.initiative ∨
        (y.initiative = x.initiative ∧ y.initiativeModifier ≤ x.initiativeModifier)) := by
  rw [Bool.eq_false_iff, Ne, playerBefore_iff]
  omega

/-- C5: `sortByInitiative` stably sorts descending by `initiative` with ties
broken descending by `initiativeModifier` (equal-key combatants keep their
relative order, and with equal score the modifier-4 combatant precedes the
modifier-2 one); when inactive, `currentTurn` resets to 0, and when active
with an in-bounds index and distinct ids, the previously current combatant is
current after the sort. -/
theorem claim_c5 (st : Initiative) :
    ((Initiative.sortPlayers st.players).Pairwise fun x y =>
      y.initiative < x.initiative ∨
        (y.initiative = x.initiative ∧ y.initiativeModifier ≤ x.initiativeModifier)) ∧
    (Initiative.sortPlayers st.players).Perm st.players ∧
    (∀ i m : Int, (Initiative.sortPlayers st.players).filter
        (fun p => p.initiative == i && p.initiativeModifier == m) =
      st.players.filter fun p => p.initiative == i && p.initiativeModifier == m) ∧
    (Initiative.sortPlayers [mkPlayer "x" 10 2, mkPlayer "y" 10 4] =
      [mkPlayer "y" 10 4, mkPlayer "x" 10 2]) ∧
    (st.isActive = false →
      st.sortByInitiative =
        { st with players := Initiative.sortPlayers st.players, currentTurn := 0 }) ∧
    (st.isActive = true → 0 ≤ st.currentTurn →
      st.currentTurn < (st.players.length : Int) →
      (st.players.map Player.id).Nodup →
      st.sortByInitiative.players = Initiative.sortPlayers st.players ∧
      st.sortByInitiative.players.get? st.sortByInitiative.currentTurn.toNat =
        st.players.get? st.currentTurn.toNat) := by
  refine ⟨?_, sortPlayers_perm st.players, fun i m => sortPlayers_stable st.players i m,
    by decide, ?_, ?_⟩
  · exact (sortPlayers_sorted st.players).imp fun h => (playerBefore_false_iff _ _).mp h
  · intro hin
    have hgc : st.getCurrentPlayer = (st, none) := by
      rw [Initiative.getCurrentPlayer, if_pos (by simp [hin])]
    simp only [Initiative.sortByInitiative, hgc]
  · intro ha h0 hlt hnd
    have hgc := getCurrentPlayer_inbounds st ha h0 hlt
    obtain ⟨pcur, hp⟩ : ∃ pcur, st.players.get? st.currentTurn.toNat = some pcur := by
      rw [List.get?_eq_get (by omega)]
      exact ⟨_, rfl⟩
    have hmem : pcur ∈ Initiative.sortPlayers st.players :=
      (sortPlayers_perm st.players).mem_iff.mpr (List.get?_mem hp)
    have hnd' : ((Initiative.sortPlayers st.players).map Player.id).Nodup :=
      ((sortPlayers_perm st.players).map Player.id).nodup_iff.mpr hnd
    obtain ⟨i, hfind, hget⟩ := findIdx_id_of_nodup _ pcur hnd' hmem
    simp only [Initiative.sortByInitiative, hgc, hp]
    rw [if_pos (by simpa using ha), hfind]
    refine ⟨rfl, ?_⟩
    dsimp only
    rw [show ((i : Int)).toNat = i from Int.toNat_natCast i, hget]

/-- C5 witness: the active three-player engine with distinct ids keeps its
current combatant across a sort. -/
theorem claim_c5_witness :
    ({ stABC with isActive := true }).sortByInitiative.players =
      Initiative.sortPlayers ({ stABC with isActive := true }).players ∧
    ({ stABC with isActive := true }).sortByInitiative.players.get?
        ({ stABC with isActive := true }).sortByInitiative.currentTurn.toNat =
      ({ stABC with isActive := true }).players.get?
        ({ stABC with isActive := true }).currentTurn.toNat :=
  (claim_c5 { stABC with isActive := true }).2.2.2.2.2 (by decide) (by decide)
    (by decide) (by decide)

end DnD
